import Mathlib

/-!
Verification development for the CTFloodBot core: shallow embeddings of the
retry primitives, matcher multiplexer, stream combinators, long-poll
streamer and authentication layer, together with theorems settling the
specification's claims about them.
-/

/-! ## Go error model

Go errors form wrapping chains (`fmt.Errorf("...: %w", err)` / `Unwrap`).
The retry package's `recoverError` holds an optional wrapped error:
`Recoverable()` is `recoverError{nil}` and `Unrecoverable(err)` is
`recoverError{err}` (pkg/retry/retry.go). -/

inductive GoError : Type where
  | base (msg : String)
  | wrap (msg : String) (inner : GoError)
  | recoverErr (wrapped : Option GoError)

namespace Retry

/-- `errors.As(err, &re)` for `re : recoverError`: walk the unwrap chain and
return the first `recoverError`'s `wrapped` field, if any. -/
def asRecoverError : GoError → Option (Option GoError)
  | .recoverErr w => some w
  | .wrap _ inner => asRecoverError inner
  | .base _ => none

/-- `Recoverable()` from pkg/retry/retry.go: `recoverError{nil}`. -/
def Recoverable : GoError := .recoverErr none

/-- `Unrecoverable(err)` from pkg/retry/retry.go: `recoverError{err}`. -/
def Unrecoverable (err : GoError) : GoError := .recoverErr (some err)

/-- The transform loop in `Recover`: `for _, t := range et { err = t(err) }`. -/
def applyTransforms (et : List (Option GoError → Option GoError))
    (err : Option GoError) : Option GoError :=
  et.foldl (fun acc t => t acc) err

/-- `Recover` from pkg/retry/retry.go, fuel-bounded.  `ops k` is the value and
error returned by the `k`-th invocation of `f`; `sched k` is the duration (in
nanoseconds) returned by the `k`-th call of the delay scheduler `s`.  The
result, when the loop terminates within `fuel` iterations, is the returned
value, the returned error, and the list of delays slept through. -/
def recoverRun {T : Type} (ops : Nat → T × Option GoError) (sched : Nat → Nat)
    (et : List (Option GoError → Option GoError)) :
    Nat → Nat → Option (T × Option GoError × List Nat)
  | 0, _ => none
  | fuel + 1, k =>
    match applyTransforms et (ops k).2 with
    | none => some ((ops k).1, none, [])
    | some e =>
      match asRecoverError e with
      | some (some inner) => some ((ops k).1, some inner, [])
      | _ =>
        (recoverRun ops sched et fuel (k + 1)).map
          (fun r => (r.1, r.2.1, sched k :: r.2.2))

/-- `DefaultBackoffMinDelay = 50ms` in nanoseconds. -/
def DefaultBackoffMinDelay : Nat := 50000000

/-- `DefaultBackoffMaxDelay = 10min` in nanoseconds. -/
def DefaultBackoffMaxDelay : Nat := 600000000000

/-- `DefaultBackoffFactor = 2`. -/
def DefaultBackoffFactor : Nat := 2

/-- One call of the scheduler closure in `Backoff`:
`delay, next = next, next*DefaultBackoffFactor; if next > max { next = max }`.
State is `(delay, next)`; the call returns the new `delay`. -/
def backoffStep (s : Nat × Nat) : Nat × Nat :=
  (s.2,
    if s.2 * DefaultBackoffFactor > DefaultBackoffMaxDelay then DefaultBackoffMaxDelay
    else s.2 * DefaultBackoffFactor)

/-- The delay returned by the `n`-th call (0-indexed) of `Backoff`'s
scheduler, starting from `delay, next := 0, DefaultBackoffMinDelay`. -/
def backoffDelay (n : Nat) : Nat :=
  (backoffStep^[n + 1] (0, DefaultBackoffMinDelay)).1

/-- `DefaultStaticDelay = 1s` in nanoseconds. -/
def DefaultStaticDelay : Nat := 1000000000

/-- The delay returned by every call of `Static`'s scheduler. -/
def staticDelay (_ : Nat) : Nat := DefaultStaticDelay

end Retry

/-! ## Data model: matcher groups and updates

pkg/models/models.go and the parts of tgbotapi.Update the multiplexer
reads.  A compiled regular expression is abstracted by its `MatchString`
behavior, a `String → Bool` function. -/

namespace Models

/-- A compiled matcher (`*regexp.Regexp`), abstracted by `MatchString`. -/
def Matcher : Type := String → Bool

/-- pkg/models/models.go: `type MatcherGroup []*regexp.Regexp`. -/
def MatcherGroup : Type := List Matcher

/-- `MatcherGroup.MatchString`: iterate in order, true iff some matcher in
the group matches the string. -/
def MatcherGroup.MatchString (g : MatcherGroup) (s : String) : Bool :=
  g.any (fun m => m s)

/-- The `Text` field of a Telegram message (`tgbotapi.Message`). -/
structure TgMessage where
  Text : String

/-- A Telegram update as the multiplexer reads it: `Message` is a nullable
pointer (`*tgbotapi.Message`). -/
structure Update where
  Message : Option TgMessage

end Models

/-! ## Multiplexer fan-out (pkg/services/multiplexer.go) -/

namespace Services

open Models

/-- One registered subscription as `mapMux.Serve` observes it during a
fan-out visit: whether its context's done channel is ready at the fail-fast
select (`ctxDoneEarly`), whether it is ready at the second select guarding
the send (`ctxDoneLate`), and its matcher group. -/
structure MuxHandler where
  ctxDoneEarly : Bool
  ctxDoneLate : Bool
  matchers : MatcherGroup

/-- The action `Serve` takes for one visited subscription. -/
inductive VisitAction
  | remove
  | send
  | skip
  deriving DecidableEq

/-- One iteration of the `store.Range` callback in `mapMux.Serve` for an
update with message text `text`.  The fail-fast select removes the handler
when its context is done; otherwise, on a match, the second select either
observes the context done (and removes) or performs the send.  When both
branches of the second select are ready Go chooses randomly; `race = true`
resolves that race in favor of the context-done branch. -/
def serveVisit (text : String) (h : MuxHandler) (race : Bool) : VisitAction :=
  if h.ctxDoneEarly then .remove
  else if h.matchers.MatchString text then
    (if h.ctxDoneLate && race then .remove else .send)
  else .skip

/-- The keys of the subscriptions to which `mapMux.Serve(update)` sends the
update: none when `update.Message == nil`, else those visited subscriptions
whose visit ends in a send. -/
def serveDeliveries (handlers : List (Nat × MuxHandler)) (u : Update)
    (race : Nat → Bool) : List Nat :=
  match u.Message with
  | none => []
  | some msg =>
    (handlers.filter
      (fun kh => serveVisit msg.Text kh.2 (race kh.1) = .send)).map (·.1)

/-! ## Multiplexer subscription lifecycle (pkg/services/multiplexer.go)

A small-step model of the registry under the documented contract: `Register`
may be called from any task while `Serve` runs on a single task.  `nextKey`
is the atomic counter `curKey`; `live` holds the keys currently present in
the `sync.Map`; `closedKeys` the keys whose channels have been closed.
`mapMux.delete` removes the key from the registry and then closes its
channel — one `closeChan` step; a send is attempted only on a subscription
the `Range` callback still finds present. -/

structure MuxState where
  nextKey : Nat
  live : List Nat
  closedKeys : List Nat

/-- The state of a fresh `mapMux`. -/
def MuxState.init : MuxState := ⟨0, [], []⟩

/-- Observable registry events. -/
inductive MuxLabel
  | register (k : Nat)
  | closeChan (k : Nat)
  | send (k : Nat)
  deriving DecidableEq

/-- One atomic step of the registry.  `register` allocates the next key
(`atomic.AddUint64`) and stores an open subscription; `closeChan` is
`mapMux.delete` (delete from registry, then close the channel), taken by
`Serve` for a subscription it found in the registry; `send` is a channel
send by `Serve` on a subscription it found in the registry. -/
inductive MuxStep : MuxState → MuxLabel → MuxState → Prop
  | register (s : MuxState) :
      MuxStep s (.register (s.nextKey + 1))
        ⟨s.nextKey + 1, (s.nextKey + 1) :: s.live, s.closedKeys⟩
  | closeChan (s : MuxState) (k : Nat) (hk : k ∈ s.live) :
      MuxStep s (.closeChan k) ⟨s.nextKey, s.live.erase k, k :: s.closedKeys⟩
  | send (s : MuxState) (k : Nat) (hk : k ∈ s.live) :
      MuxStep s (.send k) s

/-- Reachability of a registry state with its event trace, from a fresh
multiplexer. -/
inductive MuxReach : MuxState → List MuxLabel → Prop
  | init : MuxReach MuxState.init []
  | step {s tr l s2} : MuxReach s tr → MuxStep s l s2 → MuxReach s2 (tr ++ [l])

end Services

/-! ## Stream combinator (pkg/services/stream.go) -/

namespace Services

/-- `Maybe` from pkg/services/stream.go: a value together with an optional
error; the Go zero value fills `Value` when only `Error` is set. -/
structure Maybe (T : Type) where
  Value : T
  Error : Option GoError

/-- The body of one worker goroutine (`mapF`) in `MappedStream` for one job:
an input error passes through untouched (the value stays zero), otherwise
the mapper runs on the input value. -/
def mapWorker {T K : Type} [Inhabited K] (mapper : T → K × Option GoError)
    (job : Maybe T) : Maybe K :=
  match job.Error with
  | some e => { Value := default, Error := some e }
  | none => { Value := (mapper job.Value).1, Error := (mapper job.Value).2 }

/-- The result placed on job `i`'s per-job hand-off channel. -/
def jobResult {T K : Type} [Inhabited K] (mapper : T → K × Option GoError)
    (input : List (Maybe T)) (i : Fin input.length) : Maybe K :=
  mapWorker mapper (input.get i)

/-- The store of per-job hand-off channels after the workers complete jobs
in an arbitrary order: `order` is the completion schedule (which worker
finishes which job when only permutes this list); each completion fills
exactly its own job's channel. -/
def runWorkers {T K : Type} [Inhabited K] (mapper : T → K × Option GoError)
    (input : List (Maybe T)) (order : List (Fin input.length)) :
    Fin input.length → Option (Maybe K) :=
  order.foldl
    (fun store i => fun j => if j = i then some (jobResult mapper input i) else store j)
    (fun _ => none)

/-- The output stream assembled by the synchronizing goroutine of
`MappedStream`: it reads the per-job channels in the order the
demultiplexer enqueued them on `outOrder` — input order — and forwards each
job's result; the output channel closes after the last one. -/
def mappedStreamOutput {T K : Type} [Inhabited K] (mapper : T → K × Option GoError)
    (input : List (Maybe T)) (order : List (Fin input.length)) :
    List (Option (Maybe K)) :=
  List.ofFn (runWorkers mapper input order)

/-- Modelled from the spec: the sequential map of the mapper over the input
stream — each successful value is mapped, each error passes through
unchanged. -/
def seqMapSpec {T K : Type} [Inhabited K] (mapper : T → K × Option GoError)
    (input : List (Maybe T)) : List (Maybe K) :=
  input.map (fun m =>
    match m.Error with
    | some e => { Value := default, Error := some e }
    | none => { Value := (mapper m.Value).1, Error := (mapper m.Value).2 })

end Services

/-! ## Long-poll streamer (the `longPollStreamer` in pkg/services) -/

namespace LongPoll

/-- An element of the getUpdates `Result` array, reduced to the one field
the streamer reads from it: `update_id`. -/
structure RawUpdate where
  updateID : Int
  deriving DecidableEq

/-- The parse of a getUpdates response body: malformed JSON, or the wrapper
`{Ok, Description, Result}`. -/
inductive BodyParse
  | malformed
  | apiResp (ok : Bool) (desc : String) (result : List RawUpdate)

/-- What one HTTP exchange of `poll` yields: a transport error from
`Client.Do` (with its `errors.Is(err, context.DeadlineExceeded)` verdict),
or a response with a status code and body. -/
inductive PollEvent
  | doErr (isDeadline : Bool)
  | response (status : Nat) (body : BodyParse)

/-- The errors `poll` returns. -/
inductive PollError
  | transport (isDeadline : Bool)
  | badStatus (status : Nat)

/-- `longPollStreamer.poll`: a transport error is wrapped (keeping its
deadline-ness); a non-200 status becomes a fresh error that is never
deadline-flavored. -/
def poll : PollEvent → Except PollError BodyParse
  | .doErr d => .error (.transport d)
  | .response st b => if st ≠ 200 then .error (.badStatus st) else .ok b

/-- `errors.Is(err, context.DeadlineExceeded)` on a poll error. -/
def PollError.isDeadline : PollError → Bool
  | .transport d => d
  | .badStatus _ => false

/-- The offset update at the end of `parseUpdates`: a non-empty batch sets
the `offset` query parameter to the LAST update's `update_id + 1`. -/
def parseUpdatesOffset (offset : Int) (result : List RawUpdate) : Int :=
  match result.getLast? with
  | none => offset
  | some u => u.updateID + 1

/-- `longPollStreamer.parseUpdates`: malformed bodies and `Ok=false`
responses are errors; a good response emits every update in order and
advances the offset. -/
def parseUpdates (offset : Int) :
    BodyParse → Except GoError (List RawUpdate × Int)
  | .malformed => .error (.base "parsing getUpdates response")
  | .apiResp false desc _ =>
    .error (.base ("getUpdates response.Ok is false: " ++ desc))
  | .apiResp true _ result => .ok (result, parseUpdatesOffset offset result)

/-- One emission on the raw stream: a `Maybe{Value}` carrying a raw update,
or a `Maybe{Error}`. -/
inductive Emit
  | value (u : RawUpdate)
  | errVal
  deriving DecidableEq

/-- One iteration of the producer loop in `longPollStreamer.Stream`:
`ctxDone` is whether the stream context is done at the select following a
poll failure.  Returns the emissions of the iteration, the offset
afterwards, and whether the loop continues. -/
def streamIter (offset : Int) (ctxDone : Bool) (ev : PollEvent) :
    List Emit × Int × Bool :=
  match poll ev with
  | .error e =>
    if ctxDone then ([], offset, false)
    else if e.isDeadline then ([.errVal], offset, true)
    else ([.errVal], offset, false)
  | .ok body =>
    match parseUpdates offset body with
    | .error _ => ([.errVal], offset, false)
    | .ok (us, off2) => (us.map .value, off2, true)

/-- The producer over a finite schedule of iteration inputs; the stream
closes — no further emissions — at the first terminating iteration. -/
def streamRun (offset : Int) : List (Bool × PollEvent) → List Emit
  | [] => []
  | (ctxDone, ev) :: rest =>
    match streamIter offset ctxDone ev with
    | (es, off2, true) => es ++ streamRun off2 rest
    | (es, _, false) => es

/-- The streamer's offset after processing a schedule. -/
def streamRunOffset (offset : Int) : List (Bool × PollEvent) → Int
  | [] => offset
  | (ctxDone, ev) :: rest =>
    match streamIter offset ctxDone ev with
    | (_, off2, true) => streamRunOffset off2 rest
    | (_, off2, false) => off2

/-- Modelled from the spec: the Telegram long-poll contract that a
non-empty batch answers the requested offset, so its last update id is at
least `offset - 1`.  Vacuous for errors and non-batch responses. -/
def goodEvent (offset : Int) : PollEvent → Prop
  | .response _ (.apiResp true _ result) =>
    ∀ u, result.getLast? = some u → offset ≤ u.updateID + 1
  | _ => True

/-- Modelled from the spec: every batch of the schedule answers the offset
the streamer holds when that batch arrives. -/
def goodSchedule (offset : Int) : List (Bool × PollEvent) → Prop
  | [] => True
  | (ctxDone, ev) :: rest =>
    goodEvent offset ev ∧ goodSchedule (streamIter offset ctxDone ev).2.1 rest

end LongPoll

/-! ## Authentication (pkg/auth/auth.go, pkg/services/authprovider.go) -/

namespace Services

/-- `services.Client`. -/
structure Client where
  Name : String
  deriving DecidableEq

/-- A Go `map[string]Client` as an association list; a well-formed Go map
has pairwise distinct keys. -/
abbrev TokenMap : Type := List (String × Client)

/-- Go map read `m[token]`. -/
def mapLookup (m : TokenMap) (token : String) : Option Client :=
  (m.find? (fun kv => kv.1 = token)).map (·.2)

/-- Go map assignment `m[k] = v`: replace the binding of `k` if present,
else add it. -/
def mapAssign (m : TokenMap) (k : String) (v : Client) : TokenMap :=
  if m.any (fun kv => kv.1 = k) then
    m.map (fun kv => if kv.1 = k then (k, v) else kv)
  else m ++ [(k, v)]

/-- The copy loop of `NewStaticAuthenticator`:
`a := …make(map, len(clients)); for k, v := range clients { a.clients[k] = v }`. -/
def copyMap (m : TokenMap) : TokenMap :=
  m.foldl (fun acc kv => mapAssign acc kv.1 kv.2) []

/-- A heap of Go map values, so that mutation of the caller's map after
construction is expressible; a map reference is an index into the heap. -/
structure Heap where
  maps : List TokenMap

/-- Dereference a map. -/
def Heap.read (h : Heap) (ref : Nat) : TokenMap := h.maps.getD ref []

/-- In-place Go map assignment through a reference. -/
def Heap.write (h : Heap) (ref : Nat) (k : String) (v : Client) : Heap :=
  ⟨h.maps.set ref (mapAssign (h.read ref) k v)⟩

/-- A sequence of map mutations. -/
def applyWrites (h : Heap) : List (Nat × String × Client) → Heap
  | [] => h
  | (r, k, v) :: ws => applyWrites (h.write r k v) ws

/-- `staticAuthenticator`: holds its own table. -/
structure StaticAuthenticator where
  clients : TokenMap

/-- `NewStaticAuthenticator(clients)`: copies the table the reference holds
at construction time into a fresh map. -/
def NewStaticAuthenticator (h : Heap) (ref : Nat) : StaticAuthenticator :=
  ⟨copyMap (h.read ref)⟩

/-- `staticAuthenticator.Authenticate`: table hit returns the client;
a miss returns `ErrInvalidToken`. -/
def StaticAuthenticator.Authenticate (a : StaticAuthenticator)
    (token : String) : Except GoError Client :=
  match mapLookup a.clients token with
  | some c => .ok c
  | none => .error (.base "invalid authentication token provided")

/-- A construction-site program: build the authenticator from the caller's
map, then mutate the caller's map arbitrarily, then authenticate. -/
def authAfterMutation (h : Heap) (ref : Nat)
    (ws : List (Nat × String × Client)) (token : String) : Except GoError Client :=
  let a := NewStaticAuthenticator h ref
  let _hMutated := applyWrites h ws
  a.Authenticate token

end Services

namespace Auth

open Services

/-- gRPC metadata (`metadata.MD`, a multimap) as a list of key-value
pairs. -/
abbrev MD : Type := List (String × String)

/-- `md[key]`: the values stored under a key, in order. -/
def MD.get (md : MD) (key : String) : List String :=
  (md.filter (fun kv => kv.1 = key)).map (·.2)

/-- `tokenKey = "authorization"`. -/
def tokenKey : String := "authorization"

/-- `clientKey = "authenticated_client"`. -/
def clientKey : String := "authenticated_client"

/-- `json.Marshal` of a `Client`, total for this struct. -/
def marshalClient (c : Client) : String :=
  "\x7b\"Name\":\"" ++ c.Name ++ "\"\x7d"

/-- gRPC status codes the interceptor produces. -/
inductive GrpcCode
  | unauthenticated
  | internal
  deriving DecidableEq

/-- A gRPC status error. -/
structure GrpcStatus where
  code : GrpcCode
  msg : String

/-- `GRPCServerInterceptor.authorize`: `auth` abstracts the underlying
`AuthProvider.Authenticate` (`none` meaning it returned an error); `mdIn`
is the incoming-context metadata (`none` when absent).  On success the
incoming metadata is joined with the marshalled client under
`authenticated_client`. -/
def authorize (auth : String → Option Client) (mdIn : Option MD) :
    Except GrpcStatus MD :=
  match mdIn with
  | none => .error ⟨.unauthenticated, "must contain metadata with single auth token"⟩
  | some md =>
    if (md.get tokenKey).length ≠ 1 then
      .error ⟨.unauthenticated, "must contain metadata with single auth token"⟩
    else if (md.get clientKey).length ≠ 0 then
      .error ⟨.unauthenticated, "illegal metadata contained in request"⟩
    else
      match auth ((md.get tokenKey).headD "") with
      | none => .error ⟨.unauthenticated, "invalid authentication token provided"⟩
      | some client => .ok (md ++ [(clientKey, marshalClient client)])

/-- The unary server interceptor: authorize, then run the handler on the
augmented context. -/
def unaryInterceptor {R : Type} (auth : String → Option Client)
    (mdIn : Option MD) (handler : MD → R) : Except GrpcStatus R :=
  match authorize auth mdIn with
  | .error e => .error e
  | .ok md2 => .ok (handler md2)

end Auth

/-! ## Theorems -/

namespace Retry

lemma backoffStep_fst (s : Nat × Nat) : (backoffStep s).1 = s.2 := rfl

lemma backoffStep_snd_eq_min (s : Nat × Nat) :
    (backoffStep s).2 = min (s.2 * DefaultBackoffFactor) DefaultBackoffMaxDelay := by
  unfold backoffStep
  split <;> omega

lemma backoffDelay_succ (n : Nat) :
    backoffDelay (n + 1) = min (backoffDelay n * 2) DefaultBackoffMaxDelay := by
  unfold backoffDelay
  rw [Function.iterate_succ_apply' backoffStep (n + 1)]
  rw [backoffStep_fst]
  have h2 : (backoffStep^[n + 1] (0, DefaultBackoffMinDelay)).2
      = min ((backoffStep^[n + 1] (0, DefaultBackoffMinDelay)).1 * DefaultBackoffFactor)
        DefaultBackoffMaxDelay := by
    rw [Function.iterate_succ_apply' backoffStep n]
    rw [backoffStep_snd_eq_min, backoffStep_fst]
  rw [h2]
  rfl

lemma backoffDelay_closed (n : Nat) :
    backoffDelay n = min (DefaultBackoffMinDelay * 2 ^ n) DefaultBackoffMaxDelay := by
  induction n with
  | zero => rfl
  | succ n ih =>
    rw [backoffDelay_succ, ih]
    have hpow : DefaultBackoffMinDelay * 2 ^ (n + 1)
        = DefaultBackoffMinDelay * 2 ^ n * 2 := by ring
    rw [hpow]
    rcases le_total (DefaultBackoffMinDelay * 2 ^ n) DefaultBackoffMaxDelay with h | h
    · rw [min_eq_left h]
    · rw [min_eq_right h]
      generalize hg : DefaultBackoffMinDelay * 2 ^ n = a at h
      omega

/-- C6: the Backoff schedule's delays start at 50 ms, double on each
subsequent attempt up to a cap of 10 minutes (so no returned delay exceeds
10 minutes), and the Static schedule returns exactly 1 second on every
attempt.  Delays are in nanoseconds. -/
theorem C6_backoff_static_schedules :
    backoffDelay 0 = 50000000
    ∧ (∀ n, backoffDelay (n + 1) = min (backoffDelay n * 2) 600000000000)
    ∧ (∀ n, backoffDelay n = min (50000000 * 2 ^ n) 600000000000)
    ∧ (∀ n, backoffDelay n ≤ 600000000000)
    ∧ (∀ n, staticDelay n = 1000000000) := by
  refine ⟨rfl, fun n => backoffDelay_succ n, fun n => backoffDelay_closed n, fun n => ?_, fun n => rfl⟩
  rw [backoffDelay_closed n]
  exact min_le_right _ _

/-- C2: each attempt of `Recover` first pipes the attempt's error through the
transforms in order; if the result is nil the attempt's value is returned
with no error; if the result wraps an error as unrecoverable the inner
wrapped error is returned by identity; any other error — including a plain
unwrapped error and the bare `Recoverable()` marker — leads to one sleep of
`sched` followed by a retry of the next attempt. -/
theorem C2_recover_classification {T : Type} (ops : Nat → T × Option GoError)
    (sched : Nat → Nat) (et : List (Option GoError → Option GoError))
    (fuel k : Nat) :
    (applyTransforms et (ops k).2 = none →
      recoverRun ops sched et (fuel + 1) k = some ((ops k).1, none, []))
    ∧ (∀ e inner, applyTransforms et (ops k).2 = some e →
        asRecoverError e = some (some inner) →
        recoverRun ops sched et (fuel + 1) k = some ((ops k).1, some inner, []))
    ∧ (∀ e, applyTransforms et (ops k).2 = some e →
        asRecoverError e = none ∨ asRecoverError e = some none →
        recoverRun ops sched et (fuel + 1) k =
          (recoverRun ops sched et fuel (k + 1)).map
            (fun r => (r.1, r.2.1, sched k :: r.2.2)))
    ∧ (∀ msg, asRecoverError (.base msg) = none)
    ∧ (∀ inner, asRecoverError (Unrecoverable inner) = some (some inner)) := by
  refine ⟨fun h => ?_, fun e inner h h2 => ?_, fun e h h2 => ?_, fun msg => rfl, fun inner => rfl⟩
  · simp only [recoverRun, h]
  · simp only [recoverRun, h, h2]
  · rcases h2 with h2 | h2 <;> simp only [recoverRun, h, h2]

/-- C2 witness: concrete runs exercising the success and the unrecoverable
branches of `Recover`. -/
theorem C2_recover_classification_witness :
    recoverRun (fun _ => ((7 : Nat), none)) (fun _ => 0) [] 1 0 = some (7, none, [])
    ∧ recoverRun (fun _ => ((5 : Nat), some (Unrecoverable (.base "boom"))))
        (fun _ => 0) [] 1 0 = some (5, some (.base "boom"), []) := by
  constructor
  · exact (C2_recover_classification (fun _ => ((7 : Nat), none)) (fun _ => 0) [] 0 0).1 rfl
  · exact (C2_recover_classification (fun _ => ((5 : Nat), some (Unrecoverable (.base "boom"))))
      (fun _ => 0) [] 0 0).2.1 (Unrecoverable (.base "boom")) (.base "boom") rfl rfl

/-- C10: `Recover` applies the error transforms even to an attempt whose own
error is nil; when a transform turns nil into a non-nil error, the attempt is
not returned as a success but is classified (terminated with the inner error,
or retried after a sleep) according to the transformed error. -/
theorem C10_transforms_run_on_nil_error {T : Type} (ops : Nat → T × Option GoError)
    (sched : Nat → Nat) (et : List (Option GoError → Option GoError))
    (fuel k : Nat) (v : T) (e : GoError)
    (hop : ops k = (v, none))
    (ht : applyTransforms et none = some e) :
    (∀ inner, asRecoverError e = some (some inner) →
      recoverRun ops sched et (fuel + 1) k = some (v, some inner, []))
    ∧ (asRecoverError e = none ∨ asRecoverError e = some none →
      recoverRun ops sched et (fuel + 1) k =
        (recoverRun ops sched et fuel (k + 1)).map
          (fun r => (r.1, r.2.1, sched k :: r.2.2)))
    ∧ (∀ x : T, recoverRun ops sched et (fuel + 1) k ≠ some (x, none, [])) := by
  have herr : applyTransforms et (ops k).2 = some e := by rw [hop]; exact ht
  refine ⟨fun inner h2 => ?_, fun h2 => ?_, fun x => ?_⟩
  · have := (C2_recover_classification ops sched et fuel k).2.1 e inner herr h2
    rw [hop] at this
    exact this
  · exact (C2_recover_classification ops sched et fuel k).2.2.1 e herr h2
  · intro hcontra
    simp only [recoverRun, herr] at hcontra
    match hre : asRecoverError e with
    | some (some inner) =>
      simp only [hre] at hcontra
      exact Option.noConfusion hcontra (fun h => by
        have := congrArg (fun p => p.2.1) h
        simp at this)
    | some none =>
      simp only [hre, Option.map] at hcontra
      match hr : recoverRun ops sched et fuel (k + 1) with
      | none => rw [hr] at hcontra; simp at hcontra
      | some r =>
        rw [hr] at hcontra
        simp at hcontra
    | none =>
      simp only [hre, Option.map] at hcontra
      match hr : recoverRun ops sched et fuel (k + 1) with
      | none => rw [hr] at hcontra; simp at hcontra
      | some r =>
        rw [hr] at hcontra
        simp at hcontra

/-- C10 witness: a transform that rejects a successful attempt as
unrecoverable makes `Recover` return the transform's inner error. -/
theorem C10_transforms_run_on_nil_error_witness :
    recoverRun (fun _ => ((3 : Nat), none)) (fun _ => 0)
      [fun _ => some (Unrecoverable (.base "t"))] 1 0 = some (3, some (.base "t"), []) :=
  (C10_transforms_run_on_nil_error (fun _ => ((3 : Nat), none)) (fun _ => 0)
    [fun _ => some (Unrecoverable (.base "t"))] 0 0 3 (Unrecoverable (.base "t"))
    rfl rfl).1 (.base "t") rfl

end Retry

namespace Services

open Models

lemma serveVisit_send_match (text : String) (h : MuxHandler) (race : Bool)
    (hv : serveVisit text h race = .send) :
    h.matchers.MatchString text = true := by
  unfold serveVisit at hv
  split at hv
  · exact absurd hv (by decide)
  · split at hv
    · split at hv
      · exact absurd hv (by decide)
      · assumption
    · exact absurd hv (by decide)

/-- C1: fan-out correctness of the multiplexer.  Every key to which `Serve`
delivers an update belongs to a registered subscription whose matcher group
matches the update's message text (so in particular the update carries
message text), and an update without message text is delivered to no
subscription at all. -/
theorem C1_fanout_matcher_correctness :
    (∀ (handlers : List (Nat × MuxHandler)) (u : Update) (race : Nat → Bool) (k : Nat),
      k ∈ serveDeliveries handlers u race →
      ∃ msg, u.Message = some msg ∧
        ∃ h, (k, h) ∈ handlers ∧ h.matchers.MatchString msg.Text = true)
    ∧ (∀ (handlers : List (Nat × MuxHandler)) (u : Update) (race : Nat → Bool),
      u.Message = none → serveDeliveries handlers u race = []) := by
  constructor
  · intro handlers u race k hk
    obtain ⟨msgOpt⟩ := u
    cases msgOpt with
    | none => simp [serveDeliveries] at hk
    | some msg =>
      simp only [serveDeliveries, List.mem_map] at hk
      obtain ⟨kh, hmem, hkeq⟩ := hk
      rw [List.mem_filter] at hmem
      obtain ⟨hin, hsend⟩ := hmem
      refine ⟨msg, rfl, kh.2, ?_, ?_⟩
      · rw [← hkeq]
        exact hin
      · exact serveVisit_send_match msg.Text kh.2 (race kh.1) (of_decide_eq_true hsend)
  · intro handlers u race hnone
    obtain ⟨msgOpt⟩ := u
    cases hnone
    simp [serveDeliveries]

/-- C1 witness: a subscription matching "/aboba" receives a served update
with that text, and the theorem recovers the matching matcher group. -/
theorem C1_fanout_matcher_correctness_witness :
    ∃ msg, (Update.mk (some ⟨"/aboba"⟩)).Message = some msg ∧
      ∃ h, ((1 : Nat), h) ∈
          [((1 : Nat), MuxHandler.mk false false [fun s => s == "/aboba"])]
        ∧ h.matchers.MatchString msg.Text = true :=
  C1_fanout_matcher_correctness.1
    [((1 : Nat), MuxHandler.mk false false [fun s => s == "/aboba"])]
    (Update.mk (some ⟨"/aboba"⟩)) (fun _ => false) 1 (List.Mem.head _)

lemma muxReach_inv {s : MuxState} {tr : List MuxLabel} (h : MuxReach s tr) :
    s.live.Nodup ∧ s.closedKeys.Nodup
    ∧ (∀ k ∈ s.live, k ≤ s.nextKey)
    ∧ (∀ k ∈ s.closedKeys, k ≤ s.nextKey)
    ∧ (∀ k ∈ s.closedKeys, k ∉ s.live)
    ∧ (∀ k, tr.count (MuxLabel.closeChan k) = s.closedKeys.count k) := by
  induction h with
  | init => simp [MuxState.init]
  | step hre hstep ih =>
    obtain ⟨hlnd, hcnd, hlb, hcb, hdisj, hcount⟩ := ih
    cases hstep with
    | register =>
      refine ⟨?_, hcnd, ?_, ?_, ?_, ?_⟩
      · exact List.Nodup.cons (fun hmem => by have := hlb _ hmem; omega) hlnd
      · intro k hk
        rcases List.mem_cons.mp hk with rfl | hk
        · exact le_refl _
        · exact le_trans (hlb k hk) (Nat.le_succ _)
      · intro k hk
        exact le_trans (hcb k hk) (Nat.le_succ _)
      · intro k hk hmem
        rcases List.mem_cons.mp hmem with rfl | hmem
        · have := hcb _ hk; omega
        · exact hdisj k hk hmem
      · intro k
        rw [List.count_append, hcount]
        simp
    | closeChan k hk =>
      have hknotc := fun hc => hdisj k hc hk
      refine ⟨List.Nodup.erase k hlnd, List.Nodup.cons hknotc hcnd, ?_, ?_, ?_, ?_⟩
      · intro j hj
        exact hlb j (List.mem_of_mem_erase hj)
      · intro j hj
        rcases List.mem_cons.mp hj with rfl | hj
        · exact hlb j hk
        · exact hcb j hj
      · intro j hj hmem
        rcases List.mem_cons.mp hj with rfl | hj
        · exact ((List.Nodup.mem_erase_iff hlnd).mp hmem).1 rfl
        · exact hdisj j hj (List.mem_of_mem_erase hmem)
      · intro j
        by_cases hjk : j = k
        · subst hjk
          rw [List.count_append, hcount]
          simp [List.count_cons]
        · rw [List.count_append, hcount]
          simp [List.count_cons, hjk, Ne.symm hjk]
    | send k hk =>
      refine ⟨hlnd, hcnd, hlb, hcb, hdisj, ?_⟩
      intro j
      rw [List.count_append, hcount]
      simp

lemma muxReach_close_mem_closed {s : MuxState} {tr : List MuxLabel}
    (h : MuxReach s tr) (k : Nat) (hmem : MuxLabel.closeChan k ∈ tr) :
    k ∈ s.closedKeys := by
  have hcount := (muxReach_inv h).2.2.2.2.2 k
  have hpos : 0 < tr.count (MuxLabel.closeChan k) := List.count_pos_iff.mpr hmem
  rw [hcount] at hpos
  exact List.count_pos_iff.mp hpos

lemma muxReach_no_send_after_close {s : MuxState} {tr : List MuxLabel}
    (h : MuxReach s tr) :
    ∀ (k : Nat) (l₁ l₂ : List MuxLabel),
      tr = l₁ ++ MuxLabel.closeChan k :: l₂ → MuxLabel.send k ∉ l₂ := by
  induction h with
  | init =>
    intro k l₁ l₂ heq
    exact absurd heq (by simp)
  | step hre hstep ih =>
    rename_i s tr l s2
    intro k l₁ l₂ heq hsend
    rcases List.eq_nil_or_concat l₂ with rfl | ⟨l₂h, b, rfl⟩
    · exact absurd hsend (by simp)
    · rw [List.concat_eq_append] at hsend
      have heq2 : (l₁ ++ MuxLabel.closeChan k :: l₂h) ++ [b] = tr ++ [l] := by
        rw [heq]
        simp [List.concat_eq_append]
      have hinj := List.append_inj' heq2 rfl
      obtain ⟨htr, hb⟩ := hinj
      have hbl : b = l := by simpa using hb
      rcases List.mem_append.mp hsend with hsend2 | hsend2
      · exact ih k l₁ l₂h htr.symm hsend2
      · have hls : l = MuxLabel.send k := by
          rw [← hbl]
          exact (List.mem_singleton.mp hsend2).symm
        have hclosed : k ∈ s.closedKeys := by
          refine muxReach_close_mem_closed hre k ?_
          rw [← htr]
          exact List.mem_append.mpr (Or.inr (List.Mem.head _))
        have hnotlive : k ∉ s.live := (muxReach_inv hre).2.2.2.2.1 k hclosed
        cases hstep with
        | register => exact MuxLabel.noConfusion hls
        | closeChan j hj => exact MuxLabel.noConfusion hls
        | send j hj =>
          have hjk : j = k := by injection hls
          subst hjk
          exact hnotlive hj

/-- C7: in every reachable execution of the multiplexer under its contract
(single `Serve` task, concurrent `Register`), each subscription channel is
closed at most once and no send on a subscription's channel occurs after
that channel has been closed. -/
theorem C7_close_once_no_send_after_close (s : MuxState) (tr : List MuxLabel)
    (h : MuxReach s tr) :
    (∀ k : Nat, tr.count (MuxLabel.closeChan k) ≤ 1)
    ∧ (∀ (k : Nat) (l₁ l₂ : List MuxLabel),
        tr = l₁ ++ MuxLabel.closeChan k :: l₂ → MuxLabel.send k ∉ l₂) := by
  constructor
  · intro k
    have hinv := muxReach_inv h
    rw [hinv.2.2.2.2.2 k]
    exact List.nodup_iff_count_le_one.mp hinv.2.1 k
  · exact muxReach_no_send_after_close h

/-- C7 witness: the two-event trace register-then-close closes the channel
once, and nothing is sent after the close. -/
theorem C7_close_once_no_send_after_close_witness :
    ([MuxLabel.register 1, MuxLabel.closeChan 1].count (MuxLabel.closeChan 1) ≤ 1)
    ∧ MuxLabel.send 1 ∉ ([] : List MuxLabel) := by
  have reach : MuxReach ⟨1, List.erase [1] 1, [1]⟩
      (([] ++ [MuxLabel.register 1]) ++ [MuxLabel.closeChan 1]) :=
    MuxReach.step (MuxReach.step MuxReach.init (MuxStep.register MuxState.init))
      (MuxStep.closeChan ⟨1, [1], []⟩ 1 (List.Mem.head _))
  exact ⟨(C7_close_once_no_send_after_close _ _ reach).1 1,
    (C7_close_once_no_send_after_close _ _ reach).2 1 [MuxLabel.register 1] [] rfl⟩

end Services

namespace Services

lemma runWorkers_foldl {T K : Type} [Inhabited K] (mapper : T → K × Option GoError)
    (input : List (Maybe T)) (order : List (Fin input.length))
    (init : Fin input.length → Option (Maybe K)) (j : Fin input.length) :
    (order.foldl
      (fun store i => fun j2 => if j2 = i then some (jobResult mapper input i) else store j2)
      init) j
      = if j ∈ order then some (jobResult mapper input j) else init j := by
  induction order generalizing init with
  | nil => simp
  | cons a l ih =>
    rw [List.foldl_cons, ih]
    by_cases hja : j = a
    · subst hja
      by_cases hjl : j ∈ l <;> simp [hjl]
    · simp [hja, List.mem_cons]

lemma runWorkers_complete {T K : Type} [Inhabited K] (mapper : T → K × Option GoError)
    (input : List (Maybe T)) (order : List (Fin input.length))
    (hc : ∀ i : Fin input.length, i ∈ order) (j : Fin input.length) :
    runWorkers mapper input order j = some (jobResult mapper input j) := by
  unfold runWorkers
  rw [runWorkers_foldl]
  simp [hc j]

/-- C5: the parallel `MappedStream` is observationally the sequential map:
for every completion schedule of the workers that completes each job, the
assembled output is exactly one result per input element, in input order —
the sequential map of the mapper with errors passed through; an input error
produces the same output element under any mapper, so the mapper is not
consulted for it; and the output has one element per input element. -/
theorem C5_mapped_stream_is_sequential_map {T K : Type} [Inhabited K]
    (mapper : T → K × Option GoError) (input : List (Maybe T))
    (order : List (Fin input.length))
    (hcomplete : ∀ i : Fin input.length, i ∈ order) :
    mappedStreamOutput mapper input order = (seqMapSpec mapper input).map some
    ∧ (seqMapSpec mapper input).length = input.length
    ∧ (∀ (g : T → K × Option GoError) (i : Nat) (m : Maybe T) (e : GoError),
        input[i]? = some m → m.Error = some e →
        (seqMapSpec g input)[i]? = some { Value := default, Error := some e }) := by
  refine ⟨?_, by simp [seqMapSpec], ?_⟩
  · unfold mappedStreamOutput
    have h1 : (List.ofFn (runWorkers mapper input order))
        = List.ofFn (fun j => some (jobResult mapper input j)) := by
      congr 1
      funext j
      exact runWorkers_complete mapper input order hcomplete j
    rw [h1]
    have h2 : (List.ofFn (fun j => some (jobResult mapper input j)))
        = (List.ofFn (fun j => jobResult mapper input j)).map some := by
      rw [List.map_ofFn]
      rfl
    rw [h2]
    congr 1
    unfold jobResult
    have h3 : (List.ofFn fun j => mapWorker mapper (input.get j))
        = (List.ofFn input.get).map (mapWorker mapper) := by
      rw [List.map_ofFn]
      rfl
    rw [h3, List.ofFn_get]
    unfold seqMapSpec mapWorker
    rfl
  · intro g i m e hm he
    unfold seqMapSpec
    rw [List.getElem?_map, hm]
    simp [he]

/-- C5 witness: a two-element input with one success and one error, mapped
under an arbitrary worker completion order (here reversed). -/
theorem C5_mapped_stream_is_sequential_map_witness :
    mappedStreamOutput (fun n => (n + 1, none)) [Maybe.mk (5 : Nat) none,
        Maybe.mk 0 (some (.base "boom"))]
      [⟨1, by decide⟩, ⟨0, by decide⟩]
      = (seqMapSpec (fun n => (n + 1, none)) [Maybe.mk (5 : Nat) none,
          Maybe.mk 0 (some (.base "boom"))]).map some :=
  (C5_mapped_stream_is_sequential_map (fun n => (n + 1, none))
    [Maybe.mk (5 : Nat) none, Maybe.mk 0 (some (.base "boom"))]
    [⟨1, by decide⟩, ⟨0, by decide⟩]
    (by decide)).1

end Services

namespace LongPoll

lemma pairwise_getLast_max (result : List RawUpdate) :
    ∀ u : RawUpdate,
      List.Pairwise (fun a b => a.updateID ≤ b.updateID) result →
      result.getLast? = some u → ∀ v ∈ result, v.updateID ≤ u.updateID := by
  induction result with
  | nil =>
    intro u _ hl
    simp at hl
  | cons a l ih =>
    intro u hp hl v hv
    rcases List.pairwise_cons.mp hp with ⟨ha, hp2⟩
    cases l with
    | nil =>
      simp at hl hv
      subst hl
      subst hv
      exact le_refl _
    | cons b t =>
      rw [List.getLast?_cons_cons] at hl
      rcases List.mem_cons.mp hv with rfl | hv2
      · have hmem : u ∈ (b :: t).getLast? := hl
        obtain ⟨hne, hu⟩ := List.mem_getLast?_eq_getLast hmem
        exact ha u (hu ▸ List.getLast_mem hne)
      · exact ih u hp2 hl v hv2

lemma streamIter_ctxDone (off : Int) (ev : PollEvent) (e : PollError)
    (he : poll ev = .error e) : streamIter off true ev = ([], off, false) := by
  simp [streamIter, he]

lemma streamIter_deadline (off : Int) :
    streamIter off false (.doErr true) = ([.errVal], off, true) := by
  simp [streamIter, poll, PollError.isDeadline]

lemma streamIter_transport (off : Int) :
    streamIter off false (.doErr false) = ([.errVal], off, false) := by
  simp [streamIter, poll, PollError.isDeadline]

lemma streamIter_badStatus (off : Int) (st : Nat) (b : BodyParse) (hst : st ≠ 200) :
    streamIter off false (.response st b) = ([.errVal], off, false) := by
  simp [streamIter, poll, hst, PollError.isDeadline]

lemma streamIter_notOk (off : Int) (c : Bool) (desc : String) (us : List RawUpdate) :
    streamIter off c (.response 200 (.apiResp false desc us)) = ([.errVal], off, false) := by
  simp [streamIter, poll, parseUpdates]

lemma streamIter_malformed (off : Int) (c : Bool) :
    streamIter off c (.response 200 .malformed) = ([.errVal], off, false) := by
  simp [streamIter, poll, parseUpdates]

lemma streamIter_okBatch (off : Int) (c : Bool) (desc : String) (result : List RawUpdate) :
    streamIter off c (.response 200 (.apiResp true desc result))
      = (result.map .value, parseUpdatesOffset off result, true) := by
  simp [streamIter, poll, parseUpdates]

lemma goodEvent_iter_le (off : Int) (c : Bool) (ev : PollEvent)
    (hg : goodEvent off ev) : off ≤ (streamIter off c ev).2.1 := by
  cases ev with
  | doErr d =>
    cases c with
    | true => rw [streamIter_ctxDone off (.doErr d) (.transport d) rfl]
    | false =>
      cases d with
      | false => rw [streamIter_transport]
      | true => rw [streamIter_deadline]
  | response st b =>
    by_cases hst : st = 200
    · subst hst
      cases b with
      | malformed => rw [streamIter_malformed]
      | apiResp ok desc result =>
        cases ok with
        | false => rw [streamIter_notOk]
        | true =>
          rw [streamIter_okBatch]
          simp only [goodEvent] at hg
          simp only [parseUpdatesOffset]
          cases hl : result.getLast? with
          | none => exact le_refl off
          | some u => exact hg u hl
    · cases c with
      | true =>
        have he : poll (.response st b) = .error (.badStatus st) := by
          simp [poll, hst]
        rw [streamIter_ctxDone off _ _ he]
      | false => rw [streamIter_badStatus off st b hst]

lemma goodSchedule_run_le (sched : List (Bool × PollEvent)) :
    ∀ off : Int, goodSchedule off sched → off ≤ streamRunOffset off sched := by
  induction sched with
  | nil =>
    intro off _
    exact le_refl _
  | cons it rest ih =>
    intro off hg
    obtain ⟨it1, it2⟩ := it
    obtain ⟨hge, hgs⟩ := hg
    have hstep := goodEvent_iter_le off it1 it2 hge
    unfold streamRunOffset
    cases hcont : (streamIter off it1 it2).2.2 with
    | true =>
      have := ih (streamIter off it1 it2).2.1 hgs
      have hsplit : (streamIter off it1 it2)
          = ((streamIter off it1 it2).1, (streamIter off it1 it2).2.1, true) := by
        rw [← hcont]
      rw [hsplit]
      simp only []
      omega
    | false =>
      have hsplit : (streamIter off it1 it2)
          = ((streamIter off it1 it2).1, (streamIter off it1 it2).2.1, false) := by
        rw [← hcont]
      rw [hsplit]
      simp only []
      exact hstep

/-- C3 counterexample: on the batch with update ids `[7, 5]` (max id 7) the
code sets the offset to the LAST id + 1 = 6, not to max(update_id) + 1 = 8. -/
theorem C3_offset_counterexample :
    (streamIter 0 false (.response 200 (.apiResp true "" [⟨7⟩, ⟨5⟩]))).2.1 = 6
    ∧ (∀ v ∈ [RawUpdate.mk 7, RawUpdate.mk 5], v.updateID ≤ 7)
    ∧ (7 : Int) + 1 = 8
    ∧ (6 : Int) ≠ 8 := by
  refine ⟨?_, by decide, by decide, by decide⟩
  simp [streamIter, poll, parseUpdates, parseUpdatesOffset, List.getLast?]

/-- C3 (amended): after every completed non-empty poll the offset is set to
the LAST update's id + 1 (which equals max(update_id) + 1 whenever the batch
is sorted by ascending update id, as Telegram's contract provides), and
across the lifetime of the stream the offset never decreases provided every
batch answers the offset the streamer holds when it arrives. -/
theorem C3_offset_last_plus_one_and_monotone :
    (∀ (off : Int) (result : List RawUpdate) (u : RawUpdate),
      result.getLast? = some u → parseUpdatesOffset off result = u.updateID + 1)
    ∧ (∀ (result : List RawUpdate) (u : RawUpdate),
        List.Pairwise (fun a b => a.updateID ≤ b.updateID) result →
        result.getLast? = some u → ∀ v ∈ result, v.updateID ≤ u.updateID)
    ∧ (∀ (off : Int) (sched : List (Bool × PollEvent)),
        goodSchedule off sched → off ≤ streamRunOffset off sched) := by
  refine ⟨?_, pairwise_getLast_max, fun off sched => goodSchedule_run_le sched off⟩
  intro off result u hl
  unfold parseUpdatesOffset
  rw [hl]

/-- C3 witness: sorted batch `[5, 7]`; the offset advances from 0 to 8 and
the last element 7 is the maximum. -/
theorem C3_offset_last_plus_one_and_monotone_witness :
    parseUpdatesOffset 0 [RawUpdate.mk 5, RawUpdate.mk 7] = 8
    ∧ (∀ v ∈ [RawUpdate.mk 5, RawUpdate.mk 7], v.updateID ≤ 7)
    ∧ (0 : Int) ≤ streamRunOffset 0
        [(false, .response 200 (.apiResp true "" [RawUpdate.mk 5, RawUpdate.mk 7]))] := by
  refine ⟨?_, ?_, ?_⟩
  · exact C3_offset_last_plus_one_and_monotone.1 0 [RawUpdate.mk 5, RawUpdate.mk 7]
      (RawUpdate.mk 7) rfl
  · intro v hv
    have h7 : ([RawUpdate.mk 5, RawUpdate.mk 7] : List RawUpdate).getLast?
        = some (RawUpdate.mk 7) := rfl
    exact C3_offset_last_plus_one_and_monotone.2.1 [RawUpdate.mk 5, RawUpdate.mk 7]
      (RawUpdate.mk 7) (by decide) h7 v hv
  · refine C3_offset_last_plus_one_and_monotone.2.2 0 _ ⟨?_, trivial⟩
    intro u hu
    have h2 : some (RawUpdate.mk 7) = some u := hu
    cases h2
    decide

end LongPoll

namespace LongPoll

/-- C4: the long-poll error policy.  A failed poll with the stream context
already done terminates silently with no emission; a deadline/timeout
failure with the context not done emits exactly one error and continues;
any other transport failure and any non-OK status emits one error and
terminates; an `Ok=false` response emits one error and terminates; and the
run-level `streamRun` behaves accordingly: a terminating iteration's
emissions are the last ones, a continuing iteration's emissions are
followed by the rest of the run. -/
theorem C4_long_poll_error_policy :
    (∀ (off : Int) (ev : PollEvent) (e : PollError), poll ev = .error e →
      streamIter off true ev = ([], off, false))
    ∧ (∀ off : Int, streamIter off false (.doErr true) = ([.errVal], off, true))
    ∧ (∀ off : Int, streamIter off false (.doErr false) = ([.errVal], off, false))
    ∧ (∀ (off : Int) (st : Nat) (b : BodyParse), st ≠ 200 →
        streamIter off false (.response st b) = ([.errVal], off, false))
    ∧ (∀ (off : Int) (c : Bool) (desc : String) (us : List RawUpdate),
        streamIter off c (.response 200 (.apiResp false desc us))
          = ([.errVal], off, false))
    ∧ (∀ (off off2 : Int) (sched : List (Bool × PollEvent)) (c : Bool)
        (ev : PollEvent) (es : List Emit),
        streamIter off c ev = (es, off2, false) →
        streamRun off ((c, ev) :: sched) = es)
    ∧ (∀ (off off2 : Int) (sched : List (Bool × PollEvent)) (c : Bool)
        (ev : PollEvent) (es : List Emit),
        streamIter off c ev = (es, off2, true) →
        streamRun off ((c, ev) :: sched) = es ++ streamRun off2 sched) := by
  refine ⟨streamIter_ctxDone, streamIter_deadline, streamIter_transport,
    streamIter_badStatus, streamIter_notOk, ?_, ?_⟩
  · intro off off2 sched c ev es hit
    simp [streamRun, hit]
  · intro off off2 sched c ev es hit
    simp [streamRun, hit]

/-- C4 witness: a transport failure under a done context emits nothing and
stops; a timeout with the context alive emits one error and the run
continues past it. -/
theorem C4_long_poll_error_policy_witness :
    streamIter 0 true (.doErr false) = ([], 0, false)
    ∧ streamRun 0 [(false, .doErr true)] = [Emit.errVal] := by
  constructor
  · exact C4_long_poll_error_policy.1 0 (.doErr false) (.transport false) rfl
  · have h := C4_long_poll_error_policy.2.2.2.2.2.2 0 0 [] false (.doErr true)
      [Emit.errVal] (C4_long_poll_error_policy.2.1 0)
    simpa using h

end LongPoll

namespace Auth

open Services

/-- C8: the server-side auth interceptor returns `Unauthenticated` when the
incoming metadata is absent, when it does not hold exactly one
`authorization` value, when it already holds an `authenticated_client`
value, or when the authenticator rejects the token; and the handler runs
exactly when all checks pass and the authenticator accepts, on metadata
augmented with the marshalled client under `authenticated_client`. -/
theorem C8_auth_interceptor {R : Type} :
    (∀ (auth : String → Option Client) (md : MD) (handler : MD → R),
      (md.get tokenKey).length ≠ 1 →
      ∃ msg, unaryInterceptor auth (some md) handler
        = .error ⟨.unauthenticated, msg⟩)
    ∧ (∀ (auth : String → Option Client) (handler : MD → R),
      ∃ msg, unaryInterceptor auth none handler = .error ⟨.unauthenticated, msg⟩)
    ∧ (∀ (auth : String → Option Client) (md : MD) (handler : MD → R),
      md.get clientKey ≠ [] →
      ∃ msg, unaryInterceptor auth (some md) handler
        = .error ⟨.unauthenticated, msg⟩)
    ∧ (∀ (auth : String → Option Client) (md : MD) (handler : MD → R) (tok : String),
      md.get tokenKey = [tok] → md.get clientKey = [] → auth tok = none →
      ∃ msg, unaryInterceptor auth (some md) handler
        = .error ⟨.unauthenticated, msg⟩)
    ∧ (∀ (auth : String → Option Client) (md : MD) (handler : MD → R)
        (tok : String) (c : Client),
      md.get tokenKey = [tok] → md.get clientKey = [] → auth tok = some c →
      unaryInterceptor auth (some md) handler
        = .ok (handler (md ++ [(clientKey, marshalClient c)])))
    ∧ (∀ (auth : String → Option Client) (mdIn : Option MD) (handler : MD → R)
        (r : R),
      unaryInterceptor auth mdIn handler = .ok r →
      ∃ md tok c, mdIn = some md ∧ md.get tokenKey = [tok]
        ∧ md.get clientKey = [] ∧ auth tok = some c
        ∧ r = handler (md ++ [(clientKey, marshalClient c)])) := by
  refine ⟨?_, ?_, ?_, ?_, ?_, ?_⟩
  · intro auth md handler h1
    exact ⟨"must contain metadata with single auth token",
      by simp [unaryInterceptor, authorize, h1]⟩
  · intro auth handler
    exact ⟨"must contain metadata with single auth token",
      by simp [unaryInterceptor, authorize]⟩
  · intro auth md handler h2
    by_cases h1 : (md.get tokenKey).length = 1
    · refine ⟨"illegal metadata contained in request", ?_⟩
      have h2len : (md.get clientKey).length ≠ 0 := by
        simpa [List.length_eq_zero] using h2
      simp [unaryInterceptor, authorize, h1, h2len]
    · exact ⟨"must contain metadata with single auth token",
        by simp [unaryInterceptor, authorize, h1]⟩
  · intro auth md handler tok htok hcl hauth
    refine ⟨"invalid authentication token provided", ?_⟩
    simp [unaryInterceptor, authorize, htok, hcl, hauth]
  · intro auth md handler tok c htok hcl hauth
    simp [unaryInterceptor, authorize, htok, hcl, hauth]
  · intro auth mdIn handler r hr
    cases mdIn with
    | none => simp [unaryInterceptor, authorize] at hr
    | some md =>
      by_cases h1 : (md.get tokenKey).length = 1
      · by_cases h2 : (md.get clientKey).length = 0
        · have hmdl : md.get clientKey = [] := List.length_eq_zero.mp h2
          cases hmt : md.get tokenKey with
          | nil => rw [hmt] at h1; simp at h1
          | cons t rest =>
            cases rest with
            | cons t2 rest2 => rw [hmt] at h1; simp at h1
            | nil =>
              cases hauth : auth t with
              | none =>
                simp [unaryInterceptor, authorize, h1, h2, hmt, hauth] at hr
              | some c =>
                refine ⟨md, t, c, rfl, hmt, hmdl, hauth, ?_⟩
                simp [unaryInterceptor, authorize, h1, h2, hmt, hauth] at hr
                exact hr.symm
        · simp [unaryInterceptor, authorize, h1, h2] at hr
      · simp [unaryInterceptor, authorize, h1] at hr

/-- C8 witness: a well-formed request with one valid token reaches the
handler with the client encoded; a request with no `authorization` entry is
rejected as unauthenticated. -/
theorem C8_auth_interceptor_witness :
    unaryInterceptor (R := MD)
        (fun t => if t = "tok" then some (Client.mk "alice") else none)
        (some [("authorization", "tok")]) id
      = .ok ([("authorization", "tok")]
          ++ [(clientKey, marshalClient (Client.mk "alice"))])
    ∧ ∃ msg, unaryInterceptor (R := MD)
        (fun t => if t = "tok" then some (Client.mk "alice") else none)
        (some []) id = .error ⟨.unauthenticated, msg⟩ := by
  constructor
  · exact C8_auth_interceptor.2.2.2.2.1
      (fun t => if t = "tok" then some (Client.mk "alice") else none)
      [("authorization", "tok")] id "tok" (Client.mk "alice")
      (by decide) (by decide) (by simp)
  · exact C8_auth_interceptor.1
      (fun t => if t = "tok" then some (Client.mk "alice") else none)
      [] id (by decide)

end Auth

namespace Services

lemma mapLookup_cons (a : String × Client) (l : TokenMap) (t : String) :
    mapLookup (a :: l) t = if a.1 = t then some a.2 else mapLookup l t := by
  unfold mapLookup
  by_cases h : a.1 = t
  · rw [List.find?_cons_of_pos _ (by simp [h]), if_pos h]
    rfl
  · rw [List.find?_cons_of_neg _ (by simp [h]), if_neg h]

lemma mapLookup_map_replace (l : TokenMap) (k : String) (v : Client) (t : String)
    (hne : t ≠ k) :
    mapLookup (l.map (fun kv => if kv.1 = k then (k, v) else kv)) t
      = mapLookup l t := by
  induction l with
  | nil => rfl
  | cons a l ih =>
    rw [List.map_cons]
    by_cases hak : a.1 = k
    · rw [if_pos hak, mapLookup_cons, mapLookup_cons, ih]
      have h1 : k ≠ t := fun h => hne h.symm
      have h2 : a.1 ≠ t := by rw [hak]; exact h1
      rw [if_neg h1, if_neg h2]
    · rw [if_neg hak, mapLookup_cons, mapLookup_cons, ih]

lemma mapAssign_cons (a : String × Client) (l : TokenMap) (k : String) (v : Client)
    (hak : a.1 ≠ k) :
    mapAssign (a :: l) k v = a :: mapAssign l k v := by
  by_cases hany : l.any (fun kv => kv.1 = k) <;>
    simp [mapAssign, hak, hany]

lemma mapLookup_assign (m : TokenMap) (k : String) (v : Client) (t : String) :
    mapLookup (mapAssign m k v) t = if t = k then some v else mapLookup m t := by
  induction m with
  | nil =>
    have h0 : mapAssign [] k v = [(k, v)] := by simp [mapAssign]
    rw [h0, mapLookup_cons]
    by_cases h : t = k
    · subst h
      rfl
    · rw [if_neg (fun hh : k = t => h hh.symm), if_neg h]
  | cons a m ih =>
    by_cases hak : a.1 = k
    · have hany : (a :: m).any (fun kv => kv.1 = k) = true := by simp [hak]
      unfold mapAssign
      rw [if_pos hany, List.map_cons, if_pos hak, mapLookup_cons]
      by_cases htk : t = k
      · subst htk
        rw [if_pos rfl, if_pos rfl]
      · have h1 : k ≠ t := fun h => htk h.symm
        rw [if_neg h1, if_neg htk, mapLookup_map_replace m k v t htk,
          mapLookup_cons]
        have h2 : a.1 ≠ t := by rw [hak]; exact h1
        rw [if_neg h2]
    · rw [mapAssign_cons a m k v hak, mapLookup_cons, mapLookup_cons, ih]
      by_cases hat : a.1 = t
      · have htk : t ≠ k := fun h => hak (by rw [hat, h])
        rw [if_pos hat, if_neg htk, if_pos hat]
      · rw [if_neg hat, if_neg hat]

lemma mapLookup_eq_none (m : TokenMap) (t : String)
    (h : ∀ kv ∈ m, kv.1 ≠ t) : mapLookup m t = none := by
  unfold mapLookup
  rw [List.find?_eq_none.mpr (by intro kv hkv; simp [h kv hkv])]
  rfl

lemma mapLookup_copy_foldl (m : TokenMap) :
    ∀ (acc : TokenMap) (t : String), ((m.map Prod.fst).Nodup) →
      mapLookup (m.foldl (fun acc kv => mapAssign acc kv.1 kv.2) acc) t
        = match mapLookup m t with
          | some c => some c
          | none => mapLookup acc t := by
  induction m with
  | nil =>
    intro acc t _
    rfl
  | cons a m ih =>
    intro acc t hnd
    rw [List.map_cons, List.nodup_cons] at hnd
    obtain ⟨hnotin, hnd2⟩ := hnd
    rw [List.foldl_cons, ih (mapAssign acc a.1 a.2) t hnd2, mapLookup_cons]
    by_cases hat : a.1 = t
    · have hnone : mapLookup m t = none := by
        refine mapLookup_eq_none m t ?_
        intro kv hkv heq
        refine hnotin ?_
        have hk1 : kv.1 = a.1 := by rw [heq, hat]
        exact hk1 ▸ List.mem_map_of_mem Prod.fst hkv
      rw [hnone, if_pos hat]
      rw [mapLookup_assign]
      rw [if_pos (hat.symm : t = a.1)]
    · rw [if_neg hat]
      cases hmt : mapLookup m t with
      | some c => rfl
      | none =>
        rw [mapLookup_assign, if_neg (fun h => hat h.symm)]

lemma mapLookup_copyMap (m : TokenMap) (hnd : (m.map Prod.fst).Nodup)
    (t : String) : mapLookup (copyMap m) t = mapLookup m t := by
  unfold copyMap
  rw [mapLookup_copy_foldl m [] t hnd]
  cases hmt : mapLookup m t <;> rfl

/-- C9: the static authenticator returns the client its construction-time
table maps the token to, and `ErrInvalidToken` for a token absent from it;
the table is defensively copied at construction, so mutating the caller's
map after construction leaves `Authenticate` unchanged, and the result
depends only on the table contents read at construction time. -/
theorem C9_static_authenticator_defensive_copy (h : Heap) (ref : Nat)
    (token : String) (hnd : (((h.read ref)).map Prod.fst).Nodup) :
    (∀ c : Client, mapLookup (h.read ref) token = some c →
      (NewStaticAuthenticator h ref).Authenticate token = .ok c)
    ∧ (mapLookup (h.read ref) token = none →
      (NewStaticAuthenticator h ref).Authenticate token
        = .error (.base "invalid authentication token provided"))
    ∧ (∀ ws : List (Nat × String × Client),
      authAfterMutation h ref ws token
        = (NewStaticAuthenticator h ref).Authenticate token)
    ∧ (∀ (h2 : Heap) (ref2 : Nat), h.read ref = h2.read ref2 →
      (NewStaticAuthenticator h ref).Authenticate token
        = (NewStaticAuthenticator h2 ref2).Authenticate token) := by
  refine ⟨?_, ?_, fun ws => rfl, ?_⟩
  · intro c hc
    unfold StaticAuthenticator.Authenticate NewStaticAuthenticator
    rw [mapLookup_copyMap _ hnd, hc]
  · intro hc
    unfold StaticAuthenticator.Authenticate NewStaticAuthenticator
    rw [mapLookup_copyMap _ hnd, hc]
  · intro h2 ref2 heq
    unfold NewStaticAuthenticator
    rw [heq]

/-- C9 witness: a one-entry table authenticates its token to its client,
and overwriting the caller's map entry after construction does not change
the result. -/
theorem C9_static_authenticator_defensive_copy_witness :
    (NewStaticAuthenticator ⟨[[("tok", Client.mk "alice")]]⟩ 0).Authenticate "tok"
      = .ok (Client.mk "alice")
    ∧ authAfterMutation ⟨[[("tok", Client.mk "alice")]]⟩ 0
        [(0, "tok", Client.mk "eve")] "tok"
      = (NewStaticAuthenticator ⟨[[("tok", Client.mk "alice")]]⟩ 0).Authenticate "tok" := by
  constructor
  · exact (C9_static_authenticator_defensive_copy ⟨[[("tok", Client.mk "alice")]]⟩
      0 "tok" (by simp [Heap.read])).1 (Client.mk "alice") rfl
  · exact (C9_static_authenticator_defensive_copy ⟨[[("tok", Client.mk "alice")]]⟩
      0 "tok" (by simp [Heap.read])).2.2.1 [(0, "tok", Client.mk "eve")]

end Services
